import Mathlib

/-
Formal model of GitHerd's synchronization decision engine
(src/githerd.py) and of its configuration loading
(src/githerd.py, src/githerd_pkg/config.py).

The external git binary is modelled as an oracle: a function from the
git invocations the engine issues (`GitCmd`) to the triple
(returncode, stripped stdout, stripped stderr) that `run_git` returns.
Within one cycle the engine never re-reads data it has itself just
written in a way that changes a decision, so a fixed oracle per cycle
is a faithful model of the sequence of subprocess results.

The Tk widgets are modelled by the fields of `TabState` that the engine
mutates: the status tag (`state_var`), the info line (`info_var`), the
session memory `last_commit_count` and `pending_branches`, the polling
flag, and the visibility of the merge button.  Each engine entry point
additionally returns the ordered list of git commands it executed.
-/

namespace GitHerd

/-- One invocation of the external git binary, as issued by the helpers
in src/githerd.py.  `revList a b` stands for `git rev-list --count a..b`,
`diffNames a b` for `git diff --name-only a...b`, `push r s` for
`git push r s`, `pullFF r b` for `git pull --ff-only r b`,
`merge ref msg` for `git merge ref -m msg`. -/
inductive GitCmd where
  | fetch (remote : String)
  | revList (a b : String)
  | forEachRef (remote pfx : String)
  | diffNames (base tip : String)
  | push (remote refspec : String)
  | pullFF (remote branch : String)
  | merge (ref msg : String)
  | mergeAbort
deriving DecidableEq

/-- The (returncode, stdout.strip(), stderr.strip()) triple of run_git. -/
abbrev RunResult := Int × String × String

/-- The git oracle: the results the external binary returns. -/
abbrev GitEnv := GitCmd → RunResult

/-- Split a character list on a separator (kernel-computable core of
Python str.splitlines / str.split("\n")). -/
def splitAux (sep : Char) : List Char → List Char → List String
  | [], acc => [String.mk acc.reverse]
  | c :: cs, acc =>
    if c = sep then String.mk acc.reverse :: splitAux sep cs []
    else splitAux sep cs (c :: acc)

/-- Python str.splitlines on already-stripped output. -/
def splitlines (s : String) : List String :=
  if s = "" then [] else splitAux (Char.ofNat 10) s.data []

/-- Left-to-right non-overlapping deletion of a (non-empty) pattern,
fuelled for kernel computability: Python s.replace(pat, ""). -/
def stripPatFuel (pat : List Char) : Nat → List Char → List Char
  | 0, l => l
  | _ + 1, [] => []
  | n + 1, c :: cs =>
    if pat.isPrefixOf (c :: cs) then stripPatFuel pat n (cs.drop (pat.length - 1))
    else c :: stripPatFuel pat n cs

/-- Python s.replace(pat, "") for the non-empty patterns the code uses. -/
def replaceAll (s pat : String) : String :=
  String.mk (stripPatFuel pat.data s.data.length s.data)

/-- Digit accumulator for parseNat. -/
def parseNatAux : List Char → Nat → Option Nat
  | [], acc => some acc
  | c :: cs, acc =>
    if c.isDigit then parseNatAux cs (acc * 10 + (c.toNat - 48)) else none

/-- Python int(out) on the stripped stdout of rev-list --count: the
output is a decimal numeral on success; anything else raises
(kernel-computable stand-in for String.toNat?). -/
def parseNat (s : String) : Option Nat :=
  if s.data = [] then none else parseNatAux s.data 0

/-- commits_ahead (githerd.py lines 159-164): raises on non-zero exit,
otherwise parses the count (int(out) itself raises on a non-number). -/
def commits_ahead (env : GitEnv) (base tip : String) : Except String Nat :=
  let r := env (.revList base tip)
  if r.1 ≠ 0 then .error r.2.2
  else
    match parseNat r.2.1 with
    | some n => .ok n
    | none => .error r.2.1

/-- commits_behind (githerd.py lines 167-172): note the reversed range;
returns 0 on non-zero exit instead of raising. -/
def commits_behind (env : GitEnv) (base tip : String) : Except String Nat :=
  let r := env (.revList tip base)
  if r.1 ≠ 0 then .ok 0
  else
    match parseNat r.2.1 with
    | some n => .ok n
    | none => .error r.2.1

/-- get_tracked_branches (githerd.py lines 175-184): raises on failure. -/
def get_tracked_branches (env : GitEnv) (remote pfx : String) :
    Except String (List String) :=
  let r := env (.forEachRef remote pfx)
  if r.1 ≠ 0 then .error r.2.2
  else .ok (splitlines r.2.1)

/-- get_changed_files (githerd.py lines 187-192): the Python set of
changed paths is modelled as the list of diff output lines (the engine
only ever uses it through intersection-emptiness, for which the list is
an exact model of the set); on failure it is the empty set. -/
def get_changed_files (env : GitEnv) (base tip : String) : List String :=
  let r := env (.diffNames base tip)
  if r.1 ≠ 0 then [] else splitlines r.2.1

/-- Python truthiness of `files_i & files_j`: the two sets share a path. -/
def filesIntersect (u v : List String) : Bool :=
  u.any fun x => v.contains x

/-- The nested i < j loop of are_files_disjoint (lines 202-206). -/
def pairwise_disjoint_check : List (List String) → Bool
  | [] => true
  | f :: rest =>
    (rest.all fun g => !filesIntersect f g) && pairwise_disjoint_check rest

/-- are_files_disjoint (githerd.py lines 195-206). -/
def are_files_disjoint (env : GitEnv) (branches : List String)
    (main_ref remote : String) : Bool :=
  pairwise_disjoint_check
    (branches.map fun b => get_changed_files env main_ref (remote ++ "/" ++ b))

/-- local_main_ahead (githerd.py lines 209-214): the bare except
swallows every failure of commits_ahead and yields 0. -/
def local_main_ahead (env : GitEnv) (remote main : String) : Nat :=
  match commits_ahead env (remote ++ "/" ++ main) main with
  | .ok n => n
  | .error _ => 0

/-- The status tags the engine writes to state_var. -/
inductive EngState where
  | Starting        -- "⏳ Démarrage…"
  | Syncing         -- "🔄 Sync…"
  | Error           -- "🔴 ERREUR"
  | SyncOK          -- "🟢 Sync OK"
  | Idle            -- "🟢 Idle"
  | MergeAvailable  -- "🟡 STOP — Merge possible"
  | HumanRequired   -- "🔴 STOP — Action humaine requise"
  | PushFailed      -- "🔴 STOP — Push failed"
  | Merging         -- "🔀 Merge en cours…"
  | MergeError      -- "🔴 ERREUR — Merge échoué"
  | MergeOK         -- "🟢 Merge OK"
deriving DecidableEq

/-- The per-repository configuration values a RepoTab caches
(remote, main branch, tracked-branch prefix; source field self.prefix
is rendered pfx here). -/
structure Cfg where
  remote : String
  main : String
  pfx : String
deriving DecidableEq

/-- The engine-visible mutable state of one RepoTab. -/
structure TabState where
  state : EngState
  info : String
  last_commit_count : List (String × Nat)
  pending_branches : List String
  polling : Bool
  mergeButtonVisible : Bool
deriving DecidableEq

/-- Python dict .get(key, 0) on last_commit_count. -/
def dictGet (d : List (String × Nat)) (k : String) : Nat :=
  match d.lookup k with
  | some v => v
  | none => 0

/-- Python dict assignment d[k] = v on last_commit_count. -/
def dictSet (d : List (String × Nat)) (k : String) (v : Nat) :
    List (String × Nat) :=
  if (d.lookup k).isSome then d.map fun p => if p.1 = k then (k, v) else p
  else d ++ [(k, v)]

/-- b.replace(remote + "/", "") — the short branch name. -/
def shortName (cfg : Cfg) (b : String) : String :=
  replaceAll b (cfg.remote ++ "/")

/-- The per-branch fan-out loop of push_main_and_branches
(githerd.py lines 486-498).  Returns (success, state, commands run). -/
def push_branches_loop (env : GitEnv) (cfg : Cfg) (s : TabState) :
    List String → Bool × TabState × List GitCmd
  | [] => (true, s, [])
  | b :: rest =>
    let target := shortName cfg b
    let refspec := cfg.main ++ ":" ++ target
    if (env (.push cfg.remote refspec)).1 ≠ 0 then
      (false,
        { s with state := .PushFailed,
                 info := "Push vers " ++ target ++ " a échoué",
                 polling := false },
        [.push cfg.remote refspec])
    else
      let r := push_branches_loop env cfg s rest
      (r.1, r.2.1, .push cfg.remote refspec :: r.2.2)

/-- Outcome of push_main_and_branches: either the uncaught exception of
get_tracked_branches escapes (raised), or the function returns a
success flag (done). -/
inductive GitOpResult where
  | raised (s : TabState) (trace : List GitCmd)
  | done (ok : Bool) (s : TabState) (trace : List GitCmd)
deriving DecidableEq

/-- push_main_and_branches (githerd.py lines 472-500). -/
def push_main_and_branches (env : GitEnv) (cfg : Cfg) (s : TabState) :
    GitOpResult :=
  if (env (.push cfg.remote cfg.main)).1 ≠ 0 then
    .done false { s with state := .Error, polling := false }
      [.push cfg.remote cfg.main]
  else
    match get_tracked_branches env cfg.remote cfg.pfx with
    | .error _ =>
      .raised s [.push cfg.remote cfg.main, .forEachRef cfg.remote cfg.pfx]
    | .ok branches =>
      let r := push_branches_loop env cfg s branches
      .done r.1 r.2.1
        ([.push cfg.remote cfg.main, .forEachRef cfg.remote cfg.pfx] ++ r.2.2)

/-- Outcome of the classification loop of _do_sync (lines 547-566):
either commits_ahead/commits_behind raised, or the loop finishes with
the ahead-clean bucket, the diverged bucket, the new-commit flag and
the updated last_commit_count. -/
inductive ClassifyRes where
  | raised (trace : List GitCmd)
  | done (ahead : List (String × Nat)) (diverged : List (String × Nat × Nat))
      (newC : Bool) (lcc : List (String × Nat)) (trace : List GitCmd)
deriving DecidableEq

/-- The classification loop of _do_sync (githerd.py lines 547-566). -/
def classify (env : GitEnv) (cfg : Cfg) :
    List String → List (String × Nat) → ClassifyRes
  | [], lcc => .done [] [] false lcc []
  | b :: rest, lcc =>
    let mainRef := cfg.remote ++ "/" ++ cfg.main
    match commits_ahead env mainRef b with
    | .error _ => .raised [.revList mainRef b]
    | .ok a =>
      match commits_behind env mainRef b with
      | .error _ => .raised [.revList mainRef b, .revList b mainRef]
      | .ok bh =>
        if 0 < a then
          let short := shortName cfg b
          let isNew := decide (dictGet lcc short < a)
          match classify env cfg rest (dictSet lcc short a) with
          | .raised tr =>
            .raised (.revList mainRef b :: .revList b mainRef :: tr)
          | .done ahead div nC lcc2 tr =>
            if 0 < bh then
              .done ahead ((short, a, bh) :: div) (isNew || nC) lcc2
                (.revList mainRef b :: .revList b mainRef :: tr)
            else
              .done ((short, a) :: ahead) div (isNew || nC) lcc2
                (.revList mainRef b :: .revList b mainRef :: tr)
        else
          match classify env cfg rest lcc with
          | .raised tr =>
            .raised (.revList mainRef b :: .revList b mainRef :: tr)
          | .done ahead div nC lcc2 tr =>
            .done ahead div nC lcc2
              (.revList mainRef b :: .revList b mainRef :: tr)

/-- Outcome of the behind-only scan of _do_sync (lines 576-583). -/
inductive BehindRes where
  | raised (trace : List GitCmd)
  | done (behind : List (String × Nat)) (trace : List GitCmd)
deriving DecidableEq

/-- The behind-only scan of _do_sync (githerd.py lines 576-583). -/
def behind_scan (env : GitEnv) (cfg : Cfg) : List String → BehindRes
  | [] => .done [] []
  | b :: rest =>
    let mainRef := cfg.remote ++ "/" ++ cfg.main
    match commits_behind env mainRef b with
    | .error _ => .raised [.revList b mainRef]
    | .ok bh =>
      match behind_scan env cfg rest with
      | .raised tr => .raised (.revList b mainRef :: tr)
      | .done acc tr =>
        if 0 < bh then
          .done ((shortName cfg b, bh) :: acc) (.revList b mainRef :: tr)
        else .done acc (.revList b mainRef :: tr)

/-- The push loop for behind-only branches (githerd.py lines 587-599). -/
def behind_push_loop (env : GitEnv) (cfg : Cfg) (s : TabState) :
    List (String × Nat) → Bool × TabState × List GitCmd
  | [] => (true, s, [])
  | (name, _) :: rest =>
    let refspec := cfg.main ++ ":" ++ name
    if (env (.push cfg.remote refspec)).1 ≠ 0 then
      (false, { s with state := .Error, polling := false },
        [.push cfg.remote refspec])
    else
      let r := behind_push_loop env cfg s rest
      (r.1, r.2.1, .push cfg.remote refspec :: r.2.2)

/-- The body of RepoTab._do_sync (githerd.py lines 519-661), applied to
the tab state as it stands after the entry reset of lines 515-517.
Returns the final engine-visible state and the ordered list of git
commands executed.  When an uncaught helper exception kills the worker
thread, the returned state is the tab state observable at that point. -/
def do_sync_body (env : GitEnv) (cfg : Cfg) (s : TabState) :
    TabState × List GitCmd :=
  if (env (.fetch cfg.remote)).1 ≠ 0 then
    ({ s with state := .Error, polling := false }, [.fetch cfg.remote])
  else
    -- rebuild_menu (line 527) issues one for-each-ref, engine state apart
    let tr1 : List GitCmd :=
      [.fetch cfg.remote, .forEachRef cfg.remote cfg.pfx,
       .revList (cfg.remote ++ "/" ++ cfg.main) cfg.main]
    let localAhead := local_main_ahead env cfg.remote cfg.main
    if 0 < localAhead then
      match push_main_and_branches env cfg s with
      | .raised s1 tr => (s1, tr1 ++ tr)
      | .done ok s1 tr =>
        if ok then
          ({ s1 with state := .SyncOK,
                     info := "Push de " ++ toString localAhead ++
                             " commits locaux" }, tr1 ++ tr)
        else (s1, tr1 ++ tr)
    else
      match get_tracked_branches env cfg.remote cfg.pfx with
      | .error _ => (s, tr1 ++ [.forEachRef cfg.remote cfg.pfx])
      | .ok branches =>
        let tr2 := tr1 ++ [GitCmd.forEachRef cfg.remote cfg.pfx]
        match classify env cfg branches s.last_commit_count with
        | .raised tr => (s, tr2 ++ tr)
        | .done aheadB divB _newC lcc2 trC =>
          let s1 : TabState := { s with last_commit_count := lcc2 }
          let tr3 := tr2 ++ trC
          if aheadB.length + divB.length = 0 then
            match behind_scan env cfg branches with
            | .raised tr => (s1, tr3 ++ tr)
            | .done behindB trB =>
              if behindB ≠ [] then
                let r := behind_push_loop env cfg s1 behindB
                if r.1 then
                  ({ r.2.1 with state := .SyncOK,
                                info := toString behindB.length ++
                                        " branches synchronisées" },
                    tr3 ++ trB ++ r.2.2)
                else (r.2.1, tr3 ++ trB ++ r.2.2)
              else
                ({ s1 with state := .Idle,
                           info := "Toutes les branches sont synchronisées",
                           last_commit_count := [] }, tr3 ++ trB)
          else if 0 < divB.length ∨ 1 < aheadB.length then
            let allNames :=
              divB.map (fun p => p.1) ++ aheadB.map (fun p => p.1)
            let mainRef := cfg.remote ++ "/" ++ cfg.main
            let s2 : TabState := { s1 with pending_branches := allNames }
            let trD := allNames.map
              (fun n => GitCmd.diffNames mainRef (cfg.remote ++ "/" ++ n))
            let msg :=
              if 0 < divB.length then
                "Branches divergées: " ++ String.intercalate ", "
                  (divB.map fun p =>
                    p.1 ++ " (+" ++ toString p.2.1 ++ "/-" ++
                    toString p.2.2 ++ ")")
              else "Plusieurs branches: " ++ String.intercalate ", " allNames
            if are_files_disjoint env allNames mainRef cfg.remote then
              ({ s2 with state := .MergeAvailable,
                         info := "Fichiers disjoints. " ++ msg,
                         mergeButtonVisible := true,
                         polling := false }, tr3 ++ trD)
            else
              ({ s2 with state := .HumanRequired,
                         info := "Fichiers en conflit potentiel. " ++ msg,
                         polling := false }, tr3 ++ trD)
          else
            match aheadB with
            | [] => (s1, tr3)   -- unreachable: IndexError in the source
            | (leader, _) :: _ =>
              if (env (.pullFF cfg.remote leader)).1 ≠ 0 then
                ({ s1 with state := .Error,
                           info := "Pull failed: " ++
                             ((env (.pullFF cfg.remote leader)).2.2.take 100),
                           polling := false },
                  tr3 ++ [.pullFF cfg.remote leader])
              else
                match push_main_and_branches env cfg s1 with
                | .raised s3 tr =>
                  (s3, tr3 ++ [.pullFF cfg.remote leader] ++ tr)
                | .done ok s3 tr =>
                  if ok then
                    let s4 : TabState :=
                      { s3 with
                        last_commit_count :=
                          dictSet s3.last_commit_count leader 0,
                        state := .SyncOK }
                    match get_tracked_branches env cfg.remote cfg.pfx with
                    | .error _ =>
                      (s4, tr3 ++ [.pullFF cfg.remote leader] ++ tr ++
                        [.forEachRef cfg.remote cfg.pfx])
                    | .ok branches2 =>
                      ({ s4 with
                         info := "Pull de " ++ leader ++ ", push vers " ++
                           toString ((branches2.length : Int) - 1) ++
                           " autres branches" },
                        tr3 ++ [.pullFF cfg.remote leader] ++ tr ++
                        [.forEachRef cfg.remote cfg.pfx])
                  else (s3, tr3 ++ [.pullFF cfg.remote leader] ++ tr)

/-- RepoTab._do_sync (githerd.py lines 514-661): the entry reset of
lines 515-517 (status Syncing, merge button hidden, pending cleared)
followed by the cycle body. -/
def do_sync (env : GitEnv) (cfg : Cfg) (s0 : TabState) :
    TabState × List GitCmd :=
  do_sync_body env cfg
    { s0 with state := .Syncing, mergeButtonVisible := false,
              pending_branches := [] }

/-- RepoTab.sync (githerd.py lines 506-512): non-blocking lock acquire;
when the lock is already held the request returns at once, running no
git command and touching no state.  `acquired` is the result of
lock.acquire(blocking=False). -/
def sync (acquired : Bool) (env : GitEnv) (cfg : Cfg) (s : TabState) :
    TabState × List GitCmd :=
  if acquired then do_sync env cfg s else (s, [])

/-- The merge loop of _do_merge_impl (githerd.py lines 689-702): on the
first failure it runs git merge --abort and stops. -/
def merge_loop (env : GitEnv) (cfg : Cfg) (s : TabState) :
    List String → Bool × TabState × List GitCmd
  | [] => (true, s, [])
  | b :: rest =>
    if (env (.merge (cfg.remote ++ "/" ++ b) ("Merge " ++ b))).1 ≠ 0 then
      (false,
        { s with state := .MergeError,
                 info := "Merge de " ++ b ++ " a échoué",
                 polling := false },
        [.merge (cfg.remote ++ "/" ++ b) ("Merge " ++ b), .mergeAbort])
    else
      let r := merge_loop env cfg s rest
      (r.1, r.2.1,
        .merge (cfg.remote ++ "/" ++ b) ("Merge " ++ b) :: r.2.2)

/-- RepoTab._do_merge_impl (githerd.py lines 678-713). -/
def do_merge_impl (env : GitEnv) (cfg : Cfg) (s0 : TabState) :
    TabState × List GitCmd :=
  if s0.pending_branches = [] then (s0, [])
  else
    let s : TabState :=
      { s0 with state := .Merging, mergeButtonVisible := false }
    let branches := s0.pending_branches
    let r := merge_loop env cfg s branches
    if r.1 then
      match push_main_and_branches env cfg r.2.1 with
      | .raised s1 tr => (s1, r.2.2 ++ tr)
      | .done ok s1 tr =>
        if ok then
          ({ s1 with pending_branches := [],
                     last_commit_count := [],
                     state := .MergeOK,
                     info := "Merge de " ++ toString branches.length ++
                             " branches terminé" },
            r.2.2 ++ tr ++ [.forEachRef cfg.remote cfg.pfx])
        else (s1, r.2.2 ++ tr)
    else (r.2.1, r.2.2)

/-- RepoTab._do_merge (githerd.py lines 670-676): non-blocking lock
acquire with silent drop, as in sync. -/
def do_merge (acquired : Bool) (env : GitEnv) (cfg : Cfg) (s : TabState) :
    TabState × List GitCmd :=
  if acquired then do_merge_impl env cfg s else (s, [])

/-
Configuration model.  A githerd.toml on disk is modelled as
Option (Option TomlCfg): none = file absent, some none = file present
but tomllib raises while parsing it, some (some c) = file parses as c.
The ui section (a presentation-only floating-point zoom factor) is
outside the engine model.
-/

/-- The [git] table of githerd.toml (source key branch_prefix is
rendered branch_pfx). -/
structure GitSection where
  binary : Option String := none
  remote : Option String := none
  main_branch : Option String := none
  branch_pfx : Option String := none
deriving DecidableEq

/-- The [sync] table of githerd.toml. -/
structure SyncSection where
  interval_seconds : Option Int := none
deriving DecidableEq

/-- A parsed githerd.toml. -/
structure TomlCfg where
  git : Option GitSection := none
  sync : Option SyncSection := none
deriving DecidableEq

/-- DEFAULT_CONFIG of githerd.py (lines 34-47), engine-relevant part. -/
def DEFAULT_CONFIG : TomlCfg :=
  { git := some { binary := some "git", remote := some "origin",
                  main_branch := some "main", branch_pfx := some "claude/" },
    sync := some { interval_seconds := some 60 } }

/-- load_repo_config of githerd.py (lines 55-63): the parsed file is
returned verbatim; an absent or unparsable file yields the defaults. -/
def load_repo_config : Option (Option TomlCfg) → TomlCfg
  | some (some c) => c
  | some none => DEFAULT_CONFIG
  | none => DEFAULT_CONFIG

/-- cfg.get("sync", {}).get("interval_seconds", fallback). -/
def cfg_interval (c : TomlCfg) (fallback : Int) : Int :=
  match c.sync with
  | some sec =>
    match sec.interval_seconds with
    | some v => v
    | none => fallback
  | none => fallback

/-- One iteration of RepoTab.polling_loop (githerd.py lines 804-816):
re-read the config, advance the target by the configured interval, and
compute the clamped sleep.  Returns (new next_tick, sleep_time). -/
def polling_iteration (file : Option (Option TomlCfg)) (selfInterval : Int)
    (next_tick now : Int) : Int × Int :=
  let interval := cfg_interval (load_repo_config file) selfInterval
  let nt := next_tick + interval
  (nt, max 0 (nt - now))

/-- Iterated polling targets: each list entry is the (config file state,
wall-clock now) pair seen by one iteration. -/
def polling_targets (selfInterval : Int) :
    List (Option (Option TomlCfg) × Int) → Int → Int
  | [], nt => nt
  | (f, now) :: rest, nt =>
    polling_targets selfInterval rest
      (polling_iteration f selfInterval nt now).1

/-- DEFAULT_REPO_CONFIG of githerd_pkg/config.py (lines 49-54). -/
structure RepoConfig where
  remote : String
  main_branch : String
  branch_pfx : String
  interval_seconds : Int
deriving DecidableEq

/-- DEFAULT_REPO_CONFIG of githerd_pkg/config.py. -/
def DEFAULT_REPO_CONFIG : RepoConfig :=
  { remote := "origin", main_branch := "main",
    branch_pfx := "claude/", interval_seconds := 60 }

/-- load_repo_config of githerd_pkg/config.py (lines 87-101): a parsed
file is normalized field by field with per-field defaults; an absent or
unparsable file yields the defaults. -/
def pkg_load_repo_config : Option (Option TomlCfg) → RepoConfig
  | some (some c) =>
    { remote := ((c.git.getD {}).remote.getD DEFAULT_REPO_CONFIG.remote),
      main_branch :=
        ((c.git.getD {}).main_branch.getD DEFAULT_REPO_CONFIG.main_branch),
      branch_pfx :=
        ((c.git.getD {}).branch_pfx.getD DEFAULT_REPO_CONFIG.branch_pfx),
      interval_seconds :=
        ((c.sync.getD {}).interval_seconds.getD
          DEFAULT_REPO_CONFIG.interval_seconds) }
  | some none => DEFAULT_REPO_CONFIG
  | none => DEFAULT_REPO_CONFIG

/-
Concrete instantiations used by the witnesses and counterexamples:
a repository with remote "o", main branch "m", branch prefix "c/".
-/

/-- A small concrete repository configuration. -/
def cfgO : Cfg := ⟨"o", "m", "c/"⟩

/-- A freshly opened tab before any cycle. -/
def tab0 : TabState := ⟨.Starting, "", [], [], true, false⟩

/-- Oracle: two tracked branches, each one commit ahead and not behind,
both touching the same file "x"; merging always fails. -/
def envC1 : GitEnv := fun c =>
  match c with
  | .fetch _ => (0, "", "")
  | .forEachRef _ _ => (0, "o/c/a\no/c/b", "")
  | .revList a b =>
    if a = "o/m" ∧ b = "m" then (0, "0", "")
    else if a = "o/m" then (0, "1", "")
    else (0, "0", "")
  | .diffNames _ _ => (0, "x", "")
  | .merge _ _ => (1, "", "merge failed")
  | _ => (0, "", "")

/-- Oracle: two tracked branches, each one commit ahead and not behind,
with disjoint changed files "x" and "y". -/
def envC2 : GitEnv := fun c =>
  match c with
  | .fetch _ => (0, "", "")
  | .forEachRef _ _ => (0, "o/c/a\no/c/b", "")
  | .revList a b =>
    if a = "o/m" ∧ b = "m" then (0, "0", "")
    else if a = "o/m" then (0, "1", "")
    else (0, "0", "")
  | .diffNames _ t => if t = "o/c/a" then (0, "x", "") else (0, "y", "")
  | _ => (1, "", "")

/-- Oracle: every rev-list invocation exits non-zero. -/
def envC3 : GitEnv := fun c =>
  match c with
  | .revList _ _ => (1, "", "boom")
  | _ => (0, "", "")

/-- Oracle: every invocation exits non-zero. -/
def envC4 : GitEnv := fun _ => (1, "", "err")

/-- Oracle: push of main and of refspec m:c/a succeed, the push to c/b
is rejected; merging o/a succeeds, merging o/b conflicts. -/
def envC5 : GitEnv := fun c =>
  match c with
  | .push _ sp => if sp = "m" ∨ sp = "m:c/a" then (0, "", "") else (1, "", "rejected")
  | .forEachRef _ _ => (0, "o/c/a\no/c/b", "")
  | .merge ref _ => if ref = "o/a" then (0, "", "") else (1, "", "conflict")
  | _ => (0, "", "")

/-- A tab whose previous cycle left pending branches a and b. -/
def tabM5 : TabState := ⟨.MergeAvailable, "", [], ["a", "b"], false, true⟩

/-- A parsed githerd.toml configuring a zero-second poll interval. -/
def badToml : TomlCfg := { git := none, sync := some { interval_seconds := some 0 } }

/-
Theorems.
-/

/-- C10: loading a repository configuration is total and falls back to
the complete defaults: an absent githerd.toml (file state none) and a
present-but-unparsable one (file state some none) both yield the full
default configuration — remote "origin", main branch "main", branch
prefix "claude/", interval 60 — in both the githerd.py loader and the
githerd_pkg/config.py loader, with the parse error silently ignored
(the loaders are total functions of the file state). -/
theorem load_repo_config_total_defaults :
    load_repo_config none = DEFAULT_CONFIG ∧
    load_repo_config (some none) = DEFAULT_CONFIG ∧
    pkg_load_repo_config none = DEFAULT_REPO_CONFIG ∧
    pkg_load_repo_config (some none) = DEFAULT_REPO_CONFIG ∧
    DEFAULT_CONFIG =
      { git := some { binary := some "git", remote := some "origin",
                      main_branch := some "main",
                      branch_pfx := some "claude/" },
        sync := some { interval_seconds := some 60 } } ∧
    DEFAULT_REPO_CONFIG =
      { remote := "origin", main_branch := "main",
        branch_pfx := "claude/", interval_seconds := 60 } :=
  ⟨rfl, rfl, rfl, rfl, rfl, rfl⟩

/-- C9: drift-free scheduling.  Across any run of polling iterations the
wake target advances by exactly the per-iteration configured interval
(re-read from the file state that iteration sees), independently of the
wall-clock times at which the iterations actually ran; and each
iteration's next target is previous target + interval with the sleep
clamped at 0. -/
theorem drift_free_hot_reload_scheduling :
    (∀ (si : Int) (steps : List (Option (Option TomlCfg) × Int)) (nt : Int),
      polling_targets si steps nt =
        nt + (steps.map fun p => cfg_interval (load_repo_config p.1) si).sum) ∧
    (∀ (f : Option (Option TomlCfg)) (si nt now : Int),
      polling_iteration f si nt now =
        (nt + cfg_interval (load_repo_config f) si,
         max 0 (nt + cfg_interval (load_repo_config f) si - now))) := by
  constructor
  · intro si steps
    induction steps with
    | nil => intro nt; simp [polling_targets]
    | cons p rest ih =>
      intro nt
      obtain ⟨f, now⟩ := p
      simp only [polling_targets, polling_iteration, List.map_cons, List.sum_cons]
      rw [ih]
      omega
  · intro f si nt now
    rfl

/-- C8 counterexample: a githerd.toml configuring interval_seconds = 0
is returned verbatim by load_repo_config, the polling iteration uses 0
as the period (the next wake target does not advance) and sleeps 0 —
the non-positive value is neither rejected nor corrected. -/
theorem nonpositive_interval_used :
    load_repo_config (some (some badToml)) = badToml ∧
    cfg_interval (load_repo_config (some (some badToml))) 60 = 0 ∧
    (polling_iteration (some (some badToml)) 60 1000 1000).1 = 1000 ∧
    (polling_iteration (some (some badToml)) 60 1000 1000).2 = 0 :=
  ⟨rfl, rfl, by decide, by decide⟩

/-- C8 amended: the code performs no validation of interval_seconds.
load_repo_config returns a parsed file verbatim, the configured value —
whatever its sign — is read back as is, and every polling iteration
uses it directly as the period; only the computed sleep is clamped at 0. -/
theorem interval_unvalidated_passthrough :
    (∀ c : TomlCfg, load_repo_config (some (some c)) = c) ∧
    (∀ v si : Int,
      cfg_interval { git := none, sync := some { interval_seconds := some v } } si = v) ∧
    (∀ (f : Option (Option TomlCfg)) (si nt now : Int),
      (polling_iteration f si nt now).1 =
        nt + cfg_interval (load_repo_config f) si) :=
  ⟨fun _ => rfl, fun _ _ => rfl, fun _ _ _ _ => rfl⟩

/-- C6: a sync or merge request that finds the repository lock already
held (acquire(blocking=False) returned false) returns at once with the
engine state untouched and no git command executed — dropped silently,
not queued; when the lock is free the request runs exactly one full
cycle body under the lock. -/
theorem lock_held_request_dropped :
    ∀ (env : GitEnv) (cfg : Cfg) (s : TabState),
      sync false env cfg s = (s, []) ∧
      do_merge false env cfg s = (s, []) ∧
      sync true env cfg s = do_sync env cfg s ∧
      do_merge true env cfg s = do_merge_impl env cfg s :=
  fun _ _ _ => ⟨rfl, rfl, rfl, rfl⟩

/-- C3 counterexample: with an oracle whose rev-list exits non-zero,
commits_ahead itself fails as specified, but the engine's step-2
computation local_main_ahead swallows the failure and substitutes 0
instead of propagating it. -/
theorem local_main_ahead_swallows_failure :
    commits_ahead envC3 "o/m" "m" = .error "boom" ∧
    local_main_ahead envC3 "o" "m" = 0 :=
  ⟨rfl, rfl⟩

/-- C3 amended: commits_ahead propagates a non-zero exit of the
underlying rev-list command as a failure carrying its stderr, but the
engine computes localAhead through local_main_ahead, whose bare except
catches any such failure and substitutes the default 0. -/
theorem commits_ahead_propagates_engine_catches :
    (∀ (env : GitEnv) (base tip : String),
      (env (.revList base tip)).1 ≠ 0 →
      commits_ahead env base tip = .error (env (.revList base tip)).2.2) ∧
    (∀ (env : GitEnv) (remote main e : String),
      commits_ahead env (remote ++ "/" ++ main) main = .error e →
      local_main_ahead env remote main = 0) := by
  constructor
  · intro env base tip h
    unfold commits_ahead
    rw [if_pos h]
  · intro env remote main e h
    unfold local_main_ahead
    rw [h]

/-- C3 amended, witness at the concrete failing oracle. -/
theorem commits_ahead_propagates_engine_catches_witness :
    commits_ahead envC3 "a" "b" = .error (envC3 (.revList "a" "b")).2.2 ∧
    local_main_ahead envC3 "o" "m" = 0 :=
  ⟨commits_ahead_propagates_engine_catches.1 envC3 "a" "b" (by decide),
   commits_ahead_propagates_engine_catches.2 envC3 "o" "m" "boom" rfl⟩

/-- C4: fail-open lookups.  commits_behind returns 0 whenever its
rev-list exits non-zero, get_changed_files returns the empty set
whenever its diff exits non-zero, and in consequence the conflict
detector still returns a verdict (vacuously disjoint) even when every
changed-files lookup fails — neither lookup can abort a cycle or force
an Error transition. -/
theorem fail_open_lookups :
    (∀ (env : GitEnv) (base tip : String),
      (env (.revList tip base)).1 ≠ 0 →
      commits_behind env base tip = .ok 0) ∧
    (∀ (env : GitEnv) (base tip : String),
      (env (.diffNames base tip)).1 ≠ 0 →
      get_changed_files env base tip = []) ∧
    (∀ (env : GitEnv) (branches : List String) (mainRef remote : String),
      (∀ b t, (env (.diffNames b t)).1 ≠ 0) →
      are_files_disjoint env branches mainRef remote = true) := by
  refine ⟨?_, ?_, ?_⟩
  · intro env base tip h
    unfold commits_behind
    rw [if_pos h]
  · intro env base tip h
    unfold get_changed_files
    rw [if_pos h]
  · intro env branches mr rem h
    unfold are_files_disjoint
    induction branches with
    | nil => rfl
    | cons b rest ih =>
      simp only [List.map_cons, pairwise_disjoint_check]
      have hb : get_changed_files env mr (rem ++ "/" ++ b) = [] := by
        unfold get_changed_files
        rw [if_pos (h _ _)]
      rw [hb]
      simp [filesIntersect, ih]

/-- C4, witness at the all-failing oracle. -/
theorem fail_open_lookups_witness :
    commits_behind envC4 "base" "tip" = .ok 0 ∧
    get_changed_files envC4 "base" "tip" = [] ∧
    are_files_disjoint envC4 ["a", "b"] "o/m" "o" = true :=
  ⟨fail_open_lookups.1 envC4 "base" "tip" (by decide),
   fail_open_lookups.2.1 envC4 "base" "tip" (by decide),
   fail_open_lookups.2.2 envC4 ["a", "b"] "o/m" "o" (fun _ _ => one_ne_zero)⟩

/-- The fan-out loop stops at the first failing per-branch push: every
branch before the failing one is pushed, the failing push is attempted,
nothing after it runs, and nothing is rolled back. -/
theorem push_branches_loop_fail (env : GitEnv) (cfg : Cfg) (s : TabState)
    (bad : String) (post : List String)
    (hbad : (env (.push cfg.remote (cfg.main ++ ":" ++ shortName cfg bad))).1 ≠ 0) :
    ∀ pre : List String,
      (∀ b ∈ pre, (env (.push cfg.remote (cfg.main ++ ":" ++ shortName cfg b))).1 = 0) →
      push_branches_loop env cfg s (pre ++ bad :: post) =
        (false,
         { s with state := .PushFailed,
                  info := "Push vers " ++ shortName cfg bad ++ " a échoué",
                  polling := false },
         (pre.map fun b => GitCmd.push cfg.remote (cfg.main ++ ":" ++ shortName cfg b)) ++
           [.push cfg.remote (cfg.main ++ ":" ++ shortName cfg bad)]) := by
  intro pre
  induction pre with
  | nil =>
    intro _
    simp only [List.nil_append, push_branches_loop, List.map_nil]
    rw [if_pos hbad]
  | cons p rest ih =>
    intro hpre
    simp only [List.cons_append, push_branches_loop, List.append_eq]
    rw [if_neg (by simpa using hpre p (List.mem_cons_self p rest))]
    rw [ih fun b hb => hpre b (List.mem_cons_of_mem p hb)]
    simp

/-- The merge loop stops at the first failing merge: every pending
branch before the failing one is merged, the failing merge is attempted
and followed by exactly one merge --abort, and the earlier merges are
not undone. -/
theorem merge_loop_fail (env : GitEnv) (cfg : Cfg) (s : TabState)
    (bad : String) (post : List String)
    (hbad : (env (.merge (cfg.remote ++ "/" ++ bad) ("Merge " ++ bad))).1 ≠ 0) :
    ∀ pre : List String,
      (∀ b ∈ pre, (env (.merge (cfg.remote ++ "/" ++ b) ("Merge " ++ b))).1 = 0) →
      merge_loop env cfg s (pre ++ bad :: post) =
        (false,
         { s with state := .MergeError,
                  info := "Merge de " ++ bad ++ " a échoué",
                  polling := false },
         (pre.map fun b => GitCmd.merge (cfg.remote ++ "/" ++ b) ("Merge " ++ b)) ++
           [.merge (cfg.remote ++ "/" ++ bad) ("Merge " ++ bad), .mergeAbort]) := by
  intro pre
  induction pre with
  | nil =>
    intro _
    simp only [List.nil_append, merge_loop, List.map_nil]
    rw [if_pos hbad]
  | cons p rest ih =>
    intro hpre
    simp only [List.cons_append, merge_loop, List.append_eq]
    rw [if_neg (by simpa using hpre p (List.mem_cons_self p rest))]
    rw [ih fun b hb => hpre b (List.mem_cons_of_mem p hb)]
    simp

/-- C5: partial multi-step failure semantics.  In the fan-out push the
first failing per-branch push aborts the fan-out with status Push
failed naming the failing target, stops polling, and the executed
command list is exactly push-main, the branch listing, the successful
pushes of the earlier branches and the failing attempt — already-pushed
branches stay pushed, later branches are never pushed, nothing is
rolled back.  In the multi-branch manual merge the first failing merge
triggers exactly one explicit merge --abort, reports the failing
branch, stops polling, and the earlier successful merges remain. -/
theorem partial_multistep_failure :
    (∀ (env : GitEnv) (cfg : Cfg) (s : TabState) (pre : List String)
       (bad : String) (post : List String),
      (env (.push cfg.remote cfg.main)).1 = 0 →
      get_tracked_branches env cfg.remote cfg.pfx = .ok (pre ++ bad :: post) →
      (∀ b ∈ pre, (env (.push cfg.remote (cfg.main ++ ":" ++ shortName cfg b))).1 = 0) →
      (env (.push cfg.remote (cfg.main ++ ":" ++ shortName cfg bad))).1 ≠ 0 →
      push_main_and_branches env cfg s =
        .done false
          { s with state := .PushFailed,
                   info := "Push vers " ++ shortName cfg bad ++ " a échoué",
                   polling := false }
          ([.push cfg.remote cfg.main, .forEachRef cfg.remote cfg.pfx] ++
            ((pre.map fun b => GitCmd.push cfg.remote (cfg.main ++ ":" ++ shortName cfg b)) ++
              [.push cfg.remote (cfg.main ++ ":" ++ shortName cfg bad)]))) ∧
    (∀ (env : GitEnv) (cfg : Cfg) (s : TabState) (pre : List String)
       (bad : String) (post : List String),
      s.pending_branches = pre ++ bad :: post →
      (∀ b ∈ pre, (env (.merge (cfg.remote ++ "/" ++ b) ("Merge " ++ b))).1 = 0) →
      (env (.merge (cfg.remote ++ "/" ++ bad) ("Merge " ++ bad))).1 ≠ 0 →
      do_merge_impl env cfg s =
        ({ s with state := .MergeError,
                  info := "Merge de " ++ bad ++ " a échoué",
                  polling := false,
                  mergeButtonVisible := false },
         (pre.map fun b => GitCmd.merge (cfg.remote ++ "/" ++ b) ("Merge " ++ b)) ++
           [.merge (cfg.remote ++ "/" ++ bad) ("Merge " ++ bad), .mergeAbort])) := by
  constructor
  · intro env cfg s pre bad post h1 h2 h3 h4
    unfold push_main_and_branches
    rw [if_neg (by simpa using h1)]
    simp only [h2]
    rw [push_branches_loop_fail env cfg s bad post h4 pre h3]
  · intro env cfg s pre bad post h1 h2 h3
    unfold do_merge_impl
    rw [if_neg (by simp [h1])]
    simp only [h1]
    rw [merge_loop_fail env cfg _ bad post h3 pre h2]
    simp

/-- C5, witness: with the concrete oracle, the fan-out push fails at
branch c/b after pushing c/a, and the manual merge of pending [a, b]
fails at b after merging a, aborting the in-progress merge. -/
theorem partial_multistep_failure_witness :
    push_main_and_branches envC5 cfgO tab0 =
      .done false
        { tab0 with state := .PushFailed,
                    info := "Push vers " ++ shortName cfgO "o/c/b" ++ " a échoué",
                    polling := false }
        ([.push cfgO.remote cfgO.main, .forEachRef cfgO.remote cfgO.pfx] ++
          ((["o/c/a"].map fun b => GitCmd.push cfgO.remote (cfgO.main ++ ":" ++ shortName cfgO b)) ++
            [.push cfgO.remote (cfgO.main ++ ":" ++ shortName cfgO "o/c/b")])) ∧
    do_merge_impl envC5 cfgO tabM5 =
      ({ tabM5 with state := .MergeError,
                    info := "Merge de " ++ "b" ++ " a échoué",
                    polling := false,
                    mergeButtonVisible := false },
       (["a"].map fun b => GitCmd.merge (cfgO.remote ++ "/" ++ b) ("Merge " ++ b)) ++
         [.merge (cfgO.remote ++ "/" ++ "b") ("Merge " ++ "b"), .mergeAbort]) :=
  ⟨partial_multistep_failure.1 envC5 cfgO tab0 ["o/c/a"] "o/c/b" [] rfl rfl
      (by
        intro b hb
        rw [List.mem_singleton] at hb
        subst hb
        rfl)
      (by decide),
   partial_multistep_failure.2 envC5 cfgO tabM5 ["a"] "b" [] rfl
      (by
        intro b hb
        rw [List.mem_singleton] at hb
        subst hb
        rfl)
      (by decide)⟩

/-- The fan-out loop never touches the pending list and ends either in
the caller's status or in PushFailed. -/
theorem push_branches_loop_shape (env : GitEnv) (cfg : Cfg) (s : TabState) :
    ∀ bs : List String,
      (push_branches_loop env cfg s bs).2.1.pending_branches = s.pending_branches ∧
      ((push_branches_loop env cfg s bs).2.1.state = s.state ∨
        (push_branches_loop env cfg s bs).2.1.state = .PushFailed) := by
  intro bs
  induction bs with
  | nil => exact ⟨rfl, Or.inl rfl⟩
  | cons b rest ih =>
    simp only [push_branches_loop]
    split
    · exact ⟨rfl, Or.inr rfl⟩
    · exact ih

/-- The behind-only push loop never touches the pending list and ends
either in the caller's status or in Error. -/
theorem behind_push_loop_shape (env : GitEnv) (cfg : Cfg) (s : TabState) :
    ∀ l : List (String × Nat),
      (behind_push_loop env cfg s l).2.1.pending_branches = s.pending_branches ∧
      ((behind_push_loop env cfg s l).2.1.state = s.state ∨
        (behind_push_loop env cfg s l).2.1.state = .Error) := by
  intro l
  induction l with
  | nil => exact ⟨rfl, Or.inl rfl⟩
  | cons p rest ih =>
    obtain ⟨name, k⟩ := p
    simp only [behind_push_loop]
    split
    · exact ⟨rfl, Or.inr rfl⟩
    · exact ih

/-- push_main_and_branches never touches the pending list; when it
raises, the state is returned untouched, and when it returns, the
status is the caller's, Error or PushFailed. -/
theorem pmb_cases (env : GitEnv) (cfg : Cfg) (s : TabState) :
    (∀ s1 tr, push_main_and_branches env cfg s = .raised s1 tr → s1 = s) ∧
    (∀ ok s1 tr, push_main_and_branches env cfg s = .done ok s1 tr →
      s1.pending_branches = s.pending_branches ∧
      (s1.state = s.state ∨ s1.state = .Error ∨ s1.state = .PushFailed)) := by
  constructor
  · intro s1 tr h
    unfold push_main_and_branches at h
    by_cases hc : (env (.push cfg.remote cfg.main)).1 ≠ 0
    · rw [if_pos hc] at h
      exact GitOpResult.noConfusion h
    · rw [if_neg hc] at h
      cases hg : get_tracked_branches env cfg.remote cfg.pfx with
      | error e =>
        simp only [hg] at h
        injection h with h1 h2
        exact h1.symm
      | ok bs =>
        simp only [hg] at h
        exact GitOpResult.noConfusion h
  · intro ok s1 tr h
    unfold push_main_and_branches at h
    by_cases hc : (env (.push cfg.remote cfg.main)).1 ≠ 0
    · rw [if_pos hc] at h
      injection h with h1 h2 h3
      subst h2
      exact ⟨rfl, Or.inr (Or.inl rfl)⟩
    · rw [if_neg hc] at h
      cases hg : get_tracked_branches env cfg.remote cfg.pfx with
      | error e =>
        simp only [hg] at h
        exact GitOpResult.noConfusion h
      | ok bs =>
        simp only [hg] at h
        injection h with h1 h2 h3
        subst h2
        refine ⟨(push_branches_loop_shape env cfg s bs).1, ?_⟩
        rcases (push_branches_loop_shape env cfg s bs).2 with hh | hh
        · exact Or.inl hh
        · exact Or.inr (Or.inr hh)

/-- The ambiguous bucket union is non-empty whenever the ambiguous
condition of _do_sync holds. -/
theorem names_ne_nil (divB : List (String × Nat × Nat))
    (aheadB : List (String × Nat))
    (h : 0 < divB.length ∨ 1 < aheadB.length) :
    divB.map (fun p => p.1) ++ aheadB.map (fun p => p.1) ≠ [] := by
  intro hc
  rw [List.append_eq_nil] at hc
  obtain ⟨h1, h2⟩ := hc
  rw [List.map_eq_nil_iff] at h1 h2
  subst h1
  subst h2
  simp at h

/-- pairwise_disjoint_check is true exactly when no two of the file
sets share a path. -/
theorem pairwise_disjoint_check_iff :
    ∀ l : List (List String),
      pairwise_disjoint_check l = true ↔
        l.Pairwise fun u v => ∀ x ∈ u, x ∉ v := by
  intro l
  induction l with
  | nil => simp [pairwise_disjoint_check]
  | cons f rest ih =>
    simp [pairwise_disjoint_check, List.pairwise_cons, ih, filesIntersect,
      List.any_eq_true]

/-- are_files_disjoint is true exactly when the changed-file sets of
the candidate branches are pairwise disjoint. -/
theorem are_files_disjoint_iff (env : GitEnv) (branches : List String)
    (mainRef remote : String) :
    are_files_disjoint env branches mainRef remote = true ↔
      (branches.map fun b =>
        get_changed_files env mainRef (remote ++ "/" ++ b)).Pairwise
        (fun u v => ∀ x ∈ u, x ∉ v) := by
  unfold are_files_disjoint
  exact pairwise_disjoint_check_iff _

/-- After one cycle body run from a reset state, the stored pending
list is non-empty exactly when the cycle halted in MergeAvailable or
HumanRequired. -/
theorem do_sync_body_pending_iff (env : GitEnv) (cfg : Cfg) (s : TabState)
    (hpend : s.pending_branches = []) (hstate : s.state = .Syncing) :
    (do_sync_body env cfg s).1.pending_branches ≠ [] ↔
      ((do_sync_body env cfg s).1.state = .MergeAvailable ∨
        (do_sync_body env cfg s).1.state = .HumanRequired) := by
  unfold do_sync_body
  by_cases hf : (env (.fetch cfg.remote)).1 ≠ 0
  · simp [hf, hpend]
  · rw [if_neg hf]
    by_cases hl : 0 < local_main_ahead env cfg.remote cfg.main
    · rw [if_pos hl]
      cases h1 : push_main_and_branches env cfg s with
      | raised s1 tr =>
        have h2 := (pmb_cases env cfg s).1 s1 tr h1
        subst h2
        simp [hpend, hstate]
      | done ok s1 tr =>
        obtain ⟨hp1, hs1⟩ := (pmb_cases env cfg s).2 ok s1 tr h1
        cases ok with
        | true => simp [hp1, hpend]
        | false =>
          rcases hs1 with h | h | h <;> simp [hp1, hpend, h, hstate]
    · rw [if_neg hl]
      cases hg : get_tracked_branches env cfg.remote cfg.pfx with
      | error e => simp [hpend, hstate]
      | ok bs =>
        simp only
        cases hc : classify env cfg bs s.last_commit_count with
        | raised tr => simp [hpend, hstate]
        | done aheadB divB nC lcc2 trC =>
          simp only
          by_cases h0 : aheadB.length + divB.length = 0
          · rw [if_pos h0]
            cases hbs : behind_scan env cfg bs with
            | raised tr => simp [hpend, hstate]
            | done behindB trB =>
              simp only
              by_cases hbne : behindB ≠ []
              · rw [if_pos hbne]
                obtain ⟨hbp, hbst⟩ :=
                  behind_push_loop_shape env cfg
                    { s with last_commit_count := lcc2 } behindB
                by_cases hok :
                    (behind_push_loop env cfg
                      { s with last_commit_count := lcc2 } behindB).1 = true
                · rw [if_pos hok]
                  simp only [hbp]
                  simp [hpend]
                · rw [if_neg hok]
                  rcases hbst with h | h <;> simp only [hbp, h] <;>
                    simp [hpend, hstate]
              · rw [if_neg hbne]
                simp [hpend]
          · rw [if_neg h0]
            by_cases hamb : 0 < divB.length ∨ 1 < aheadB.length
            · rw [if_pos hamb]
              have hne := names_ne_nil divB aheadB hamb
              by_cases hd : are_files_disjoint env
                  (divB.map (fun p => p.1) ++ aheadB.map fun p => p.1)
                  (cfg.remote ++ "/" ++ cfg.main) cfg.remote = true
              · rw [if_pos hd]
                simp [hne]
              · rw [if_neg hd]
                simp [hne]
            · rw [if_neg hamb]
              cases aheadB with
              | nil => simp [hpend, hstate]
              | cons p tl =>
                obtain ⟨leader, k⟩ := p
                simp only
                by_cases hpull : (env (.pullFF cfg.remote leader)).1 ≠ 0
                · rw [if_pos hpull]
                  simp [hpend]
                · rw [if_neg hpull]
                  cases h2 : push_main_and_branches env cfg
                      { s with last_commit_count := lcc2 } with
                  | raised s3 tr =>
                    have h3 := (pmb_cases env cfg _).1 s3 tr h2
                    subst h3
                    simp [hpend, hstate]
                  | done ok s3 tr =>
                    obtain ⟨hp3, hs3⟩ := (pmb_cases env cfg _).2 ok s3 tr h2
                    cases ok with
                    | true =>
                      cases hg2 : get_tracked_branches env cfg.remote cfg.pfx with
                      | error e => simp_all [hp3, hpend]
                      | ok bs2 => simp_all [hp3, hpend]
                    | false =>
                      rcases hs3 with h | h | h <;> simp_all [hp3, hpend, hstate]

/-- C1 counterexample: a cycle against an oracle with two ahead
branches whose changed files overlap ends in HumanRequired while the
stored pending list is the non-empty branch union — contradicting the
claim that every non-MergeAvailable terminal state leaves the pending
list empty — and from that very state the manual merge action runs git
commands (it is guarded by pending-list emptiness, not by the
MergeAvailable state). -/
theorem human_required_keeps_pending :
    (do_sync envC1 cfgO tab0).1.state = .HumanRequired ∧
    (do_sync envC1 cfgO tab0).1.pending_branches = ["c/a", "c/b"] ∧
    (do_merge_impl envC1 cfgO (do_sync envC1 cfgO tab0).1).2 ≠ [] :=
  ⟨by decide, by decide, by decide⟩

/-- C1 amended: for every sync cycle the stored pending list is
non-empty exactly when the cycle ends in MergeAvailable or in
HumanRequired (the two outcomes of the conflict-detector branch), and
the operator merge action is a no-op exactly on an empty pending list:
with empty pending it returns at once, running no git command and
leaving the engine state untouched. -/
theorem pending_iff_ambiguous_halt :
    ∀ (env : GitEnv) (cfg : Cfg) (s : TabState),
      ((do_sync env cfg s).1.pending_branches ≠ [] ↔
        ((do_sync env cfg s).1.state = .MergeAvailable ∨
          (do_sync env cfg s).1.state = .HumanRequired)) ∧
      (∀ t : TabState, t.pending_branches = [] →
        do_merge_impl env cfg t = (t, [])) := by
  intro env cfg s
  constructor
  · exact do_sync_body_pending_iff env cfg _ rfl rfl
  · intro t ht
    unfold do_merge_impl
    rw [if_pos ht]

/-- C1 amended, witness at a concrete oracle and the empty-pending tab. -/
theorem pending_iff_ambiguous_halt_witness :
    ((do_sync envC2 cfgO tab0).1.pending_branches ≠ [] ↔
      ((do_sync envC2 cfgO tab0).1.state = .MergeAvailable ∨
        (do_sync envC2 cfgO tab0).1.state = .HumanRequired)) ∧
    do_merge_impl envC2 cfgO tab0 = (tab0, []) :=
  ⟨(pending_iff_ambiguous_halt envC2 cfgO tab0).1,
   (pending_iff_ambiguous_halt envC2 cfgO tab0).2 tab0 rfl⟩

/-- C2: in every cycle in which fetch succeeds and local main is not
ahead, if the classification leaves a non-empty diverged bucket or more
than one ahead-clean branch, the engine stores the union of the
implicated branch names (diverged first, in listing order) as pending,
halts automatic polling, and ends in MergeAvailable exactly when every
pairwise intersection of those branches' changed-file sets is empty, in
HumanRequired exactly otherwise. -/
theorem ambiguous_case_detector_decides :
    ∀ (env : GitEnv) (cfg : Cfg) (s0 : TabState) (bs : List String)
      (aheadB : List (String × Nat)) (divB : List (String × Nat × Nat))
      (nC : Bool) (lcc2 : List (String × Nat)) (trC : List GitCmd),
      (env (.fetch cfg.remote)).1 = 0 →
      local_main_ahead env cfg.remote cfg.main = 0 →
      get_tracked_branches env cfg.remote cfg.pfx = .ok bs →
      classify env cfg bs s0.last_commit_count = .done aheadB divB nC lcc2 trC →
      (0 < divB.length ∨ 1 < aheadB.length) →
      (do_sync env cfg s0).1.pending_branches =
          divB.map (fun p => p.1) ++ aheadB.map (fun p => p.1) ∧
      (do_sync env cfg s0).1.polling = false ∧
      ((do_sync env cfg s0).1.state = .MergeAvailable ↔
        ((divB.map (fun p => p.1) ++ aheadB.map (fun p => p.1)).map fun n =>
            get_changed_files env (cfg.remote ++ "/" ++ cfg.main)
              (cfg.remote ++ "/" ++ n)).Pairwise
          (fun u v => ∀ x ∈ u, x ∉ v)) ∧
      ((do_sync env cfg s0).1.state = .HumanRequired ↔
        ¬ ((divB.map (fun p => p.1) ++ aheadB.map (fun p => p.1)).map fun n =>
            get_changed_files env (cfg.remote ++ "/" ++ cfg.main)
              (cfg.remote ++ "/" ++ n)).Pairwise
          (fun u v => ∀ x ∈ u, x ∉ v)) := by
  intro env cfg s0 bs aheadB divB nC lcc2 trC h1 h2 h3 h4 h5
  have h0 : ¬(aheadB.length + divB.length = 0) := by omega
  unfold do_sync do_sync_body
  rw [if_neg (by simp [h1])]
  rw [if_neg (by simp [h2])]
  simp only [h3]
  simp only [h4]
  rw [if_neg h0]
  rw [if_pos h5]
  by_cases hd : are_files_disjoint env
      (divB.map (fun p => p.1) ++ aheadB.map fun p => p.1)
      (cfg.remote ++ "/" ++ cfg.main) cfg.remote = true
  · rw [if_pos hd]
    refine ⟨rfl, rfl, ?_, ?_⟩
    · exact iff_of_true rfl
        ((are_files_disjoint_iff env _ _ _).mp hd)
    · exact iff_of_false (by simp)
        (not_not_intro ((are_files_disjoint_iff env _ _ _).mp hd))
  · rw [if_neg hd]
    refine ⟨rfl, rfl, ?_, ?_⟩
    · exact iff_of_false (by simp)
        fun hp => hd ((are_files_disjoint_iff env _ _ _).mpr hp)
    · exact iff_of_true rfl
        fun hp => hd ((are_files_disjoint_iff env _ _ _).mpr hp)

/-- C2, witness: two ahead-clean branches with disjoint changed files
end in MergeAvailable with both stored as pending and polling halted. -/
theorem ambiguous_case_detector_decides_witness :
    (do_sync envC2 cfgO tab0).1.pending_branches = ["c/a", "c/b"] ∧
    (do_sync envC2 cfgO tab0).1.polling = false ∧
    (do_sync envC2 cfgO tab0).1.state = .MergeAvailable := by
  have h := ambiguous_case_detector_decides envC2 cfgO tab0
      ["o/c/a", "o/c/b"] [("c/a", 1), ("c/b", 1)] [] true
      [("c/a", 1), ("c/b", 1)]
      [.revList "o/m" "o/c/a", .revList "o/c/a" "o/m",
       .revList "o/m" "o/c/b", .revList "o/c/b" "o/m"]
      rfl rfl rfl rfl (Or.inr (by decide))
  exact ⟨h.1, h.2.1, h.2.2.1.mpr (by decide)⟩

/-- Two fan-out loops over the same oracle agree on success and on the
resulting status whenever their incoming statuses agree. -/
theorem push_branches_loop_par (env : GitEnv) (cfg : Cfg) (s t : TabState)
    (hst : s.state = t.state) :
    ∀ bs : List String,
      (push_branches_loop env cfg s bs).1 = (push_branches_loop env cfg t bs).1 ∧
      (push_branches_loop env cfg s bs).2.1.state =
        (push_branches_loop env cfg t bs).2.1.state := by
  intro bs
  induction bs with
  | nil => exact ⟨rfl, hst⟩
  | cons b rest ih =>
    simp only [push_branches_loop]
    by_cases hc : (env (.push cfg.remote (cfg.main ++ ":" ++ shortName cfg b))).1 ≠ 0
    · simp only [if_pos hc]
      exact ⟨trivial, trivial⟩
    · simp only [if_neg hc]
      exact ih

/-- Two behind-only push loops over the same oracle agree on success
and on the resulting status whenever their incoming statuses agree. -/
theorem behind_push_loop_par (env : GitEnv) (cfg : Cfg) (s t : TabState)
    (hst : s.state = t.state) :
    ∀ l : List (String × Nat),
      (behind_push_loop env cfg s l).1 = (behind_push_loop env cfg t l).1 ∧
      (behind_push_loop env cfg s l).2.1.state =
        (behind_push_loop env cfg t l).2.1.state := by
  intro l
  induction l with
  | nil => exact ⟨rfl, hst⟩
  | cons p rest ih =>
    obtain ⟨name, k⟩ := p
    simp only [behind_push_loop]
    by_cases hc : (env (.push cfg.remote (cfg.main ++ ":" ++ name))).1 ≠ 0
    · simp only [if_pos hc]
      exact ⟨trivial, trivial⟩
    · simp only [if_neg hc]
      exact ih

/-- Two push_main_and_branches runs over the same oracle raise or
return together, agree on the success flag, and agree on the resulting
status whenever their incoming statuses agree. -/
theorem pmb_par (env : GitEnv) (cfg : Cfg) (s t : TabState)
    (hst : s.state = t.state) :
    match push_main_and_branches env cfg s, push_main_and_branches env cfg t with
    | .raised s1 _, .raised t1 _ => s1.state = t1.state
    | .done o1 s1 _, .done o2 t1 _ => o1 = o2 ∧ s1.state = t1.state
    | _, _ => False := by
  unfold push_main_and_branches
  by_cases hc : (env (.push cfg.remote cfg.main)).1 ≠ 0
  · simp only [if_pos hc]
    exact ⟨trivial, trivial⟩
  · simp only [if_neg hc]
    cases hg : get_tracked_branches env cfg.remote cfg.pfx with
    | error e => exact hst
    | ok bs =>
      exact ⟨(push_branches_loop_par env cfg s t hst bs).1,
             (push_branches_loop_par env cfg s t hst bs).2⟩

/-- Two classification runs over the same oracle differing only in the
previous-cycle ahead-count memory raise together or finish with the
same ahead-clean bucket, diverged bucket and trace — the memory feeds
only the new-commit notification flag. -/
theorem classify_par (env : GitEnv) (cfg : Cfg) :
    ∀ (bs : List String) (l1 l2 : List (String × Nat)),
      match classify env cfg bs l1, classify env cfg bs l2 with
      | .raised t1, .raised t2 => t1 = t2
      | .done a1 d1 _ _ t1, .done a2 d2 _ _ t2 => a1 = a2 ∧ d1 = d2 ∧ t1 = t2
      | _, _ => False := by
  intro bs
  induction bs with
  | nil => intro l1 l2; exact ⟨rfl, rfl, rfl⟩
  | cons b rest ih =>
    intro l1 l2
    simp only [classify]
    cases ha : commits_ahead env (cfg.remote ++ "/" ++ cfg.main) b with
    | error e => exact rfl
    | ok a =>
      cases hb : commits_behind env (cfg.remote ++ "/" ++ cfg.main) b with
      | error e => exact rfl
      | ok bh =>
        by_cases h0 : 0 < a
        · simp only [if_pos h0]
          have hrec := ih (dictSet l1 (shortName cfg b) a)
              (dictSet l2 (shortName cfg b) a)
          cases h1 : classify env cfg rest (dictSet l1 (shortName cfg b) a) with
          | raised t1 =>
            cases h2 : classify env cfg rest (dictSet l2 (shortName cfg b) a) with
            | raised t2 =>
              rw [h1, h2] at hrec
              have h3 : t1 = t2 := hrec
              subst h3
              exact rfl
            | done a2 d2 n2 lc2 t2 =>
              rw [h1, h2] at hrec
              exact (hrec : False).elim
          | done a1 d1 n1 lc1 t1 =>
            cases h2 : classify env cfg rest (dictSet l2 (shortName cfg b) a) with
            | raised t2 =>
              rw [h1, h2] at hrec
              exact (hrec : False).elim
            | done a2 d2 n2 lc2 t2 =>
              rw [h1, h2] at hrec
              obtain ⟨e1, e2, e3⟩ := (hrec : a1 = a2 ∧ d1 = d2 ∧ t1 = t2)
              subst e1
              subst e2
              subst e3
              by_cases hbh : 0 < bh
              · simp only [if_pos hbh]
                exact ⟨trivial, trivial, trivial⟩
              · simp only [if_neg hbh]
                exact ⟨trivial, trivial, trivial⟩
        · simp only [if_neg h0]
          have hrec := ih l1 l2
          cases h1 : classify env cfg rest l1 with
          | raised t1 =>
            cases h2 : classify env cfg rest l2 with
            | raised t2 =>
              rw [h1, h2] at hrec
              have h3 : t1 = t2 := hrec
              subst h3
              exact rfl
            | done a2 d2 n2 lc2 t2 =>
              rw [h1, h2] at hrec
              exact (hrec : False).elim
          | done a1 d1 n1 lc1 t1 =>
            cases h2 : classify env cfg rest l2 with
            | raised t2 =>
              rw [h1, h2] at hrec
              exact (hrec : False).elim
            | done a2 d2 n2 lc2 t2 =>
              rw [h1, h2] at hrec
              obtain ⟨e1, e2, e3⟩ := (hrec : a1 = a2 ∧ d1 = d2 ∧ t1 = t2)
              subst e1
              subst e2
              subst e3
              exact ⟨rfl, rfl, rfl⟩

/-- The terminal status of a cycle body depends only on the oracle: two
runs from tab states with equal statuses end with equal statuses.  In
particular the terminal status does not depend on pending lists,
ahead-count memory or polling flags left by a previous cycle. -/
theorem do_sync_body_state_par (env : GitEnv) (cfg : Cfg) :
    ∀ s t : TabState, s.state = t.state →
      (do_sync_body env cfg s).1.state = (do_sync_body env cfg t).1.state := by
  intro s t hst
  unfold do_sync_body
  by_cases hf : (env (.fetch cfg.remote)).1 ≠ 0
  · simp only [if_pos hf]
  · simp only [if_neg hf]
    by_cases hl : 0 < local_main_ahead env cfg.remote cfg.main
    · simp only [if_pos hl]
      have hp := pmb_par env cfg s t hst
      cases h1 : push_main_and_branches env cfg s with
      | raised s1 tr1 =>
        cases h2 : push_main_and_branches env cfg t with
        | raised t1 tr2 =>
          rw [h1, h2] at hp
          exact (hp : s1.state = t1.state)
        | done o2 t1 tr2 =>
          rw [h1, h2] at hp
          exact (hp : False).elim
      | done o1 s1 tr1 =>
        cases h2 : push_main_and_branches env cfg t with
        | raised t1 tr2 =>
          rw [h1, h2] at hp
          exact (hp : False).elim
        | done o2 t1 tr2 =>
          rw [h1, h2] at hp
          obtain ⟨ho, hs1⟩ := (hp : o1 = o2 ∧ s1.state = t1.state)
          subst ho
          cases o1 with
          | true => rfl
          | false => exact hs1
    · simp only [if_neg hl]
      cases hg : get_tracked_branches env cfg.remote cfg.pfx with
      | error e => exact hst
      | ok bs =>
        simp only
        have hcl := classify_par env cfg bs s.last_commit_count t.last_commit_count
        cases h1 : classify env cfg bs s.last_commit_count with
        | raised tr1 =>
          cases h2 : classify env cfg bs t.last_commit_count with
          | raised tr2 => exact hst
          | done a2 d2 n2 lc2 tc2 =>
            rw [h1, h2] at hcl
            exact (hcl : False).elim
        | done aheadB divB nC lcc2 trC =>
          cases h2 : classify env cfg bs t.last_commit_count with
          | raised tr2 =>
            rw [h1, h2] at hcl
            exact (hcl : False).elim
          | done aheadB2 divB2 nC2 lcc22 trC2 =>
            rw [h1, h2] at hcl
            obtain ⟨e1, e2, e3⟩ :=
              (hcl : aheadB = aheadB2 ∧ divB = divB2 ∧ trC = trC2)
            subst e1
            subst e2
            subst e3
            simp only
            by_cases h0 : aheadB.length + divB.length = 0
            · simp only [if_pos h0]
              cases hbs : behind_scan env cfg bs with
              | raised tr => exact hst
              | done behindB trB =>
                simp only
                by_cases hbne : behindB ≠ []
                · simp only [if_pos hbne]
                  obtain ⟨hbo, hbst⟩ := behind_push_loop_par env cfg
                      { s with last_commit_count := lcc2 }
                      { t with last_commit_count := lcc22 } hst behindB
                  rw [hbo]
                  by_cases hok : (behind_push_loop env cfg
                      { t with last_commit_count := lcc22 } behindB).1 = true
                  · simp only [if_pos hok]
                  · simp only [if_neg hok]
                    exact hbst
                · simp only [if_neg hbne]
            · simp only [if_neg h0]
              by_cases hamb : 0 < divB.length ∨ 1 < aheadB.length
              · simp only [if_pos hamb]
                by_cases hd : are_files_disjoint env
                    (divB.map (fun p => p.1) ++ aheadB.map fun p => p.1)
                    (cfg.remote ++ "/" ++ cfg.main) cfg.remote = true
                · simp only [if_pos hd]
                · simp only [if_neg hd]
              · simp only [if_neg hamb]
                cases aheadB with
                | nil => exact hst
                | cons p tl =>
                  obtain ⟨leader, k⟩ := p
                  simp only
                  by_cases hpull : (env (.pullFF cfg.remote leader)).1 ≠ 0
                  · simp only [if_pos hpull]
                  · simp only [if_neg hpull]
                    have hp := pmb_par env cfg
                        { s with last_commit_count := lcc2 }
                        { t with last_commit_count := lcc22 } hst
                    cases h3 : push_main_and_branches env cfg
                        { s with last_commit_count := lcc2 } with
                    | raised s3 tr3 =>
                      cases h4 : push_main_and_branches env cfg
                          { t with last_commit_count := lcc22 } with
                      | raised t3 tr4 =>
                        rw [h3, h4] at hp
                        exact (hp : s3.state = t3.state)
                      | done o4 t3 tr4 =>
                        rw [h3, h4] at hp
                        exact (hp : False).elim
                    | done o3 s3 tr3 =>
                      cases h4 : push_main_and_branches env cfg
                          { t with last_commit_count := lcc22 } with
                      | raised t3 tr4 =>
                        rw [h3, h4] at hp
                        exact (hp : False).elim
                      | done o4 t3 tr4 =>
                        rw [h3, h4] at hp
                        obtain ⟨ho, hs3⟩ := (hp : o3 = o4 ∧ s3.state = t3.state)
                        subst ho
                        cases o3 with
                        | true =>
                          cases hg2 : get_tracked_branches env cfg.remote cfg.pfx with
                          | error e => rfl
                          | ok bs2 => rfl
                        | false => exact hs3

/-- C7: cycle idempotence under an unchanged repository.  Running the
sync cycle a second time in immediate succession, with the git oracle
answering exactly as in the first run (no repository changes between
the runs), terminates in the same state as the first run: a halted
first cycle repeats its halt state and an Idle first cycle stays Idle. -/
theorem second_cycle_same_terminal_state :
    ∀ (env : GitEnv) (cfg : Cfg) (s : TabState),
      (do_sync env cfg (do_sync env cfg s).1).1.state =
        (do_sync env cfg s).1.state := by
  intro env cfg s
  unfold do_sync
  exact do_sync_body_state_par env cfg _ _ rfl

end GitHerd
